import Mathlib

/-!
Verification of the MapManipulator camera-navigation controller
(src/src/CsApp/MapManipulator.cpp) against its natural-language
specification.  The C++ code is shallowly embedded: doubles become real
numbers, vsg math types become small structures over the reals,
timestamps (std::chrono time points with nanosecond resolution) become
integers counting nanoseconds, and the external collaborators (scene
intersection, geospatial services, render camera) become explicit
parameters.
-/

open Real

namespace MapManip

/-- 3-component double vector, mirroring vsg::dvec3. -/
@[ext] structure V3 where
  x : ℝ
  y : ℝ
  z : ℝ

instance : Add V3 := ⟨fun a b => ⟨a.x + b.x, a.y + b.y, a.z + b.z⟩⟩
instance : Neg V3 := ⟨fun a => ⟨-a.x, -a.y, -a.z⟩⟩

/-- Scalar multiplication on the right, `v * s` as used in the C++ code. -/
noncomputable def V3.smul (v : V3) (s : ℝ) : V3 := ⟨v.x * s, v.y * s, v.z * s⟩

/-- vsg::length of a dvec3. -/
noncomputable def vlength (v : V3) : ℝ := Real.sqrt (v.x * v.x + v.y * v.y + v.z * v.z)

/-- vsg::normalize: componentwise division by the length. -/
noncomputable def vnormalize (v : V3) : V3 :=
  ⟨v.x / vlength v, v.y / vlength v, v.z / vlength v⟩

/-- vsg::cross. -/
noncomputable def vcross (a b : V3) : V3 :=
  ⟨a.y * b.z - a.z * b.y, a.z * b.x - a.x * b.z, a.x * b.y - a.y * b.x⟩

/-- vsg::dot. -/
noncomputable def vdot (a b : V3) : ℝ := a.x * b.x + a.y * b.y + a.z * b.z

/-- vsg::radians: degrees to radians. -/
noncomputable def radiansOf (degrees : ℝ) : ℝ := degrees * (π / 180)

/-- C truncation toward zero, as used by fmod. -/
noncomputable def ctrunc (t : ℝ) : ℤ := if 0 ≤ t then ⌊t⌋ else ⌈t⌉

/-- C fmod for a positive modulus: x - y * trunc(x / y). -/
noncomputable def cfmod (x y : ℝ) : ℝ := x - y * (ctrunc (x / y) : ℝ)

/-- First wrapping statement of `normalizeAzimRad`:
`if (input < -PI) input += PI*2.0;`. -/
noncomputable def shiftUpAzim (v : ℝ) : ℝ := if v < -π then v + π * 2 else v

/-- Second wrapping statement of `normalizeAzimRad`:
`if (input > PI) input -= PI*2.0;`. -/
noncomputable def shiftDownAzim (v : ℝ) : ℝ := if v > π then v - π * 2 else v

/-- `normalizeAzimRad` from the anonymous namespace of MapManipulator.cpp:
first mod-reduces inputs of magnitude above 2*pi, then applies the two
sequential wrapping statements. -/
noncomputable def normalizeAzimRad (input : ℝ) : ℝ :=
  shiftDownAzim (shiftUpAzim (if |input| > 2 * π then cfmod input (2 * π) else input))

/- ------------------------------------------------------------------ -/
/- C2: azimuth wrapping -/

lemma cfmod_bounds (x y : ℝ) (hy : 0 < y) : -y < cfmod x y ∧ cfmod x y < y := by
  unfold cfmod ctrunc
  rcases le_or_lt 0 (x / y) with h | h
  · rw [if_pos h]
    have h1 : (⌊x / y⌋ : ℝ) * y ≤ x := by
      rw [← le_div_iff₀ hy]
      exact Int.floor_le _
    have h2 : x < ((⌊x / y⌋ : ℝ) + 1) * y := by
      rw [← div_lt_iff₀ hy]
      exact Int.lt_floor_add_one _
    constructor <;> nlinarith
  · rw [if_neg (not_le.mpr h)]
    have h1 : x ≤ (⌈x / y⌉ : ℝ) * y := by
      rw [← div_le_iff₀ hy]
      exact Int.le_ceil _
    have h2 : ((⌈x / y⌉ : ℝ) - 1) * y < x := by
      rw [← lt_div_iff₀ hy]
      have := Int.ceil_lt_add_one (x / y)
      linarith
    constructor <;> nlinarith

lemma shift_mem (v : ℝ) (h1 : -(2 * π) ≤ v) (h2 : v ≤ 2 * π) :
    -π ≤ shiftDownAzim (shiftUpAzim v) ∧ shiftDownAzim (shiftUpAzim v) ≤ π := by
  have hpi : 0 < π := Real.pi_pos
  unfold shiftUpAzim shiftDownAzim
  by_cases hlo : v < -π
  · rw [if_pos hlo]
    have hn : ¬ (v + π * 2 > π) := by linarith
    rw [if_neg hn]
    constructor <;> linarith
  · rw [if_neg hlo]
    push_neg at hlo
    by_cases hhi : v > π
    · rw [if_pos hhi]
      constructor <;> linarith
    · rw [if_neg hhi]
      push_neg at hhi
      exact ⟨hlo, hhi⟩

lemma normalizeAzimRad_mem (x : ℝ) :
    -π ≤ normalizeAzimRad x ∧ normalizeAzimRad x ≤ π := by
  have hpi : 0 < π := Real.pi_pos
  unfold normalizeAzimRad
  by_cases hb : |x| > 2 * π
  · rw [if_pos hb]
    obtain ⟨hlo, hhi⟩ := cfmod_bounds x (2 * π) (by linarith)
    exact shift_mem _ (by linarith) (by linarith)
  · rw [if_neg hb]
    push_neg at hb
    have habs := abs_le.mp hb
    exact shift_mem _ habs.1 habs.2

lemma cfmod_three_pi : cfmod (3 * π) (2 * π) = π := by
  have hpi : 0 < π := Real.pi_pos
  have hq : 3 * π / (2 * π) = (3 : ℝ) / 2 := by
    rw [mul_comm 2 π, mul_comm 3 π, mul_div_mul_left _ _ (ne_of_gt hpi)]
  unfold cfmod ctrunc
  rw [hq, if_pos (by norm_num : (0:ℝ) ≤ 3 / 2)]
  have hf : ⌊(3 / 2 : ℝ)⌋ = 1 := by norm_num
  rw [hf]
  push_cast
  ring

lemma cfmod_neg_three_pi : cfmod (-(3 * π)) (2 * π) = -π := by
  have hpi : 0 < π := Real.pi_pos
  have hq : -(3 * π) / (2 * π) = -((3 : ℝ) / 2) := by
    rw [neg_div, mul_comm 2 π, mul_comm 3 π, mul_div_mul_left _ _ (ne_of_gt hpi)]
  unfold cfmod ctrunc
  rw [hq, if_neg (by norm_num : ¬ ((0:ℝ) ≤ -(3 / 2)))]
  have hf : ⌈(-(3 / 2) : ℝ)⌉ = -1 := by
    rw [Int.ceil_neg]
    norm_num
  rw [hf]
  push_cast
  ring

lemma normalizeAzimRad_three_pi : normalizeAzimRad (3 * π) = π := by
  have hpi : 0 < π := Real.pi_pos
  unfold normalizeAzimRad shiftUpAzim shiftDownAzim
  have hb : |3 * π| > 2 * π := by
    rw [abs_of_pos (by linarith)]
    linarith
  rw [if_pos hb, cfmod_three_pi,
    if_neg (by linarith : ¬ (π < -π)), if_neg (lt_irrefl π)]

lemma normalizeAzimRad_neg_three_pi : normalizeAzimRad (-(3 * π)) = -π := by
  have hpi : 0 < π := Real.pi_pos
  unfold normalizeAzimRad shiftUpAzim shiftDownAzim
  have hb : |(-(3 * π))| > 2 * π := by
    rw [abs_of_neg (by linarith)]
    linarith
  rw [if_pos hb, cfmod_neg_three_pi, if_neg (lt_irrefl (-π)),
    if_neg (by linarith : ¬ (-π > π))]

/-- C2 counterexample: the claim says `normalizeAzimRad` maps every input
into the half-open interval (-pi, pi] and that -3*pi maps to pi.  In fact
-3*pi maps to -pi (the wrap test `input < -pi` is strict, so -pi is left
alone), and -pi is not in (-pi, pi]. -/
theorem normalizeAzimRad_neg3pi_cex :
    normalizeAzimRad (-(3 * π)) = -π ∧ ¬ (-π < normalizeAzimRad (-(3 * π))) := by
  refine ⟨normalizeAzimRad_neg_three_pi, ?_⟩
  rw [normalizeAzimRad_neg_three_pi]
  exact lt_irrefl _

/-- C2 (amended): `normalizeAzimRad` maps every real input into the closed
interval [-pi, pi]; input 3*pi maps to pi, and input -3*pi maps to -pi
(the boundary -pi is produced, not wrapped to pi). -/
theorem normalizeAzimRad_wrap :
    (∀ x : ℝ, -π ≤ normalizeAzimRad x ∧ normalizeAzimRad x ≤ π) ∧
    normalizeAzimRad (3 * π) = π ∧
    normalizeAzimRad (-(3 * π)) = -π :=
  ⟨normalizeAzimRad_mem, normalizeAzimRad_three_pi, normalizeAzimRad_neg_three_pi⟩

/- ------------------------------------------------------------------ -/
/- Binding table: InputSpec, Action, Settings -/

/-- Semantic action types, in the order of the `ActionType` enum implied by
`s_actionNames` plus `ACTION_TOGGLE_PROJECTION` (used by `bindKey`). -/
inductive ActionType where
  | ACTION_NULL
  | ACTION_HOME
  | ACTION_GOTO
  | ACTION_PAN
  | ACTION_PAN_LEFT
  | ACTION_PAN_RIGHT
  | ACTION_PAN_UP
  | ACTION_PAN_DOWN
  | ACTION_ROTATE
  | ACTION_ROTATE_LEFT
  | ACTION_ROTATE_RIGHT
  | ACTION_ROTATE_UP
  | ACTION_ROTATE_DOWN
  | ACTION_ZOOM
  | ACTION_ZOOM_IN
  | ACTION_ZOOM_OUT
  | ACTION_EARTH_DRAG
  | ACTION_TOGGLE_PROJECTION
deriving DecidableEq

open ActionType

/-- Direction values. Modelled from the spec: the `Direction` enum lives in
the missing header MapManipulator.h; only distinctness of the values
matters for the claims, so they are numbered in declaration order. -/
inductive Direction where
  | DIR_NA
  | DIR_LEFT
  | DIR_RIGHT
  | DIR_UP
  | DIR_DOWN
deriving DecidableEq

open Direction

/-- Direction cast to int, as used for the scroll-binding input mask.
Modelled from the spec: concrete enum values come from the missing header;
any injective assignment is equivalent for the claims. -/
def Direction.toMask : Direction → Nat
  | DIR_NA => 0
  | DIR_LEFT => 1
  | DIR_RIGHT => 2
  | DIR_UP => 3
  | DIR_DOWN => 4

/-- Event-type constants. Modelled from the spec: numeric values come from
the missing header; only distinctness matters. -/
def EVENT_MOUSE_DOUBLE_CLICK : Nat := 0
def EVENT_MOUSE_DRAG : Nat := 1
def EVENT_KEY_DOWN : Nat := 2
def EVENT_SCROLL : Nat := 3
def EVENT_MOUSE_CLICK : Nat := 4
def EVENT_MULTI_DRAG : Nat := 5
def EVENT_MULTI_PINCH : Nat := 6
def EVENT_MULTI_TWIST : Nat := 7

/-- vsg::MODKEY_NumLock (from the external vsg KeyEvent header). -/
def MODKEY_NumLock : Nat := 16
/-- vsg::MODKEY_CapsLock (from the external vsg KeyEvent header). -/
def MODKEY_CapsLock : Nat := 2

/-- Action-option keys, in the order of `s_actionOptionNames`. Modelled
from the spec: numeric values come from the missing header. -/
def OPTION_SCALE_X : Nat := 0
def OPTION_SCALE_Y : Nat := 1
def OPTION_CONTINUOUS : Nat := 2
def OPTION_SINGLE_AXIS : Nat := 3
def OPTION_GOTO_RANGE_FACTOR : Nat := 4
def OPTION_DURATION : Nat := 5

/-- One entry of an `ActionOptions` list: an option key plus the typed
values (the C++ struct carries all three fields). -/
structure ActionOption where
  option : Nat
  boolValue : Bool
  intValue : Int
  doubleValue : ℝ

/-- `Action::init()`: derive the direction from the action type. -/
def ActionType.dirOf : ActionType → Direction
  | ACTION_PAN_LEFT => DIR_LEFT
  | ACTION_ROTATE_LEFT => DIR_LEFT
  | ACTION_PAN_RIGHT => DIR_RIGHT
  | ACTION_ROTATE_RIGHT => DIR_RIGHT
  | ACTION_PAN_UP => DIR_UP
  | ACTION_ROTATE_UP => DIR_UP
  | ACTION_ZOOM_IN => DIR_UP
  | ACTION_PAN_DOWN => DIR_DOWN
  | ACTION_ROTATE_DOWN => DIR_DOWN
  | ACTION_ZOOM_OUT => DIR_DOWN
  | _ => DIR_NA

/-- MapManipulator::Action: type, derived direction, option list. -/
structure Action where
  type : ActionType
  dir : Direction
  options : List ActionOption

/-- The two Action constructors both run `init()`. -/
def mkAction (t : ActionType) (opts : List ActionOption) : Action :=
  ⟨t, t.dirOf, opts⟩

/-- The static `MapManipulator::NullAction`. -/
def NullAction : Action := mkAction ACTION_NULL []

/-- `Action::getBoolOption`: linear scan with caller-supplied default. -/
def Action.getBoolOption (a : Action) (opt : Nat) (dflt : Bool) : Bool :=
  match a.options.find? (fun o => o.option == opt) with
  | some o => o.boolValue
  | none => dflt

/-- `Action::getDoubleOption`: linear scan with caller-supplied default. -/
noncomputable def Action.getDoubleOption (a : Action) (opt : Nat) (dflt : ℝ) : ℝ :=
  match a.options.find? (fun o => o.option == opt) with
  | some o => o.doubleValue
  | none => dflt

/-- MapManipulator::InputSpec: (event type, input mask, modifier-key mask),
all C ints, modelled as naturals (the program only uses non-negative
values below 2^32). -/
structure InputSpec where
  event_type : Nat
  input_mask : Nat
  modkey_mask : Nat
deriving DecidableEq

/-- `InputSpec::operator==`: compares the triple but ORs MODKEY_NumLock
into both modifier masks first (i.e. ignores the Num Lock bit). -/
def InputSpec.eqOp (a b : InputSpec) : Bool :=
  a.event_type == b.event_type &&
  a.input_mask == b.input_mask &&
  ((a.modkey_mask ||| MODKEY_NumLock) == (b.modkey_mask ||| MODKEY_NumLock))

/-- `InputSpec::operator<`: lexicographic on the raw triple, including the
raw modifier mask. -/
def InputSpec.ltOp (a b : InputSpec) : Bool :=
  if a.event_type < b.event_type then true
  else if a.event_type > b.event_type then false
  else if a.input_mask < b.input_mask then true
  else if a.input_mask > b.input_mask then false
  else a.modkey_mask < b.modkey_mask

/-- Two keys are equivalent for the std::map ordered by `operator<` iff
neither is less than the other. -/
def InputSpec.equivOp (a b : InputSpec) : Bool :=
  !a.ltOp b && !b.ltOp a

lemma InputSpec.ltOp_iff (a b : InputSpec) :
    a.ltOp b = true ↔
      a.event_type < b.event_type ∨
        (a.event_type = b.event_type ∧
          (a.input_mask < b.input_mask ∨
            (a.input_mask = b.input_mask ∧ a.modkey_mask < b.modkey_mask))) := by
  unfold InputSpec.ltOp
  split_ifs with h1 h2 h3 h4 <;> simp <;> omega

lemma InputSpec.equivOp_iff_eq (a b : InputSpec) : a.equivOp b = true ↔ a = b := by
  have hab := InputSpec.ltOp_iff a b
  have hba := InputSpec.ltOp_iff b a
  simp only [InputSpec.equivOp, Bool.and_eq_true, Bool.not_eq_true']
  constructor
  · rintro ⟨h1, h2⟩
    rw [Bool.eq_false_iff, Ne, hab] at h1
    rw [Bool.eq_false_iff, Ne, hba] at h2
    cases a with
    | mk ae ai am =>
      cases b with
      | mk be bi bm =>
        simp only [InputSpec.mk.injEq]
        simp only at h1 h2
        omega
  · rintro rfl
    constructor <;> (rw [Bool.eq_false_iff, Ne, InputSpec.ltOp_iff]; omega)

/-- The binding table: a std::map<InputSpec, Action> keyed by `operator<`.
Because the `operator<` equivalence coincides with raw-triple equality
(`InputSpec.equivOp_iff_eq`), the map is modelled as an association list
with equivalence-based find and insert-or-overwrite. -/
def Bindings := List (InputSpec × Action)

/-- std::map::find with respect to the `operator<` equivalence. -/
def findSpec : List (InputSpec × Action) → InputSpec → Option Action
  | [], _ => none
  | (k, a) :: rest, s => if k.equivOp s then some a else findSpec rest s

/-- std::map::operator[] assignment: overwrite the equivalent key if
present, otherwise insert. -/
def bindInsert : List (InputSpec × Action) → InputSpec → Action → List (InputSpec × Action)
  | [], s, a => [(s, a)]
  | (k, b) :: rest, s, a =>
    if k.equivOp s then (k, a) :: rest else (k, b) :: bindInsert rest s a

/-- `Settings::expandSpec`: all the modifier-combination branches are
commented out in this snapshot, so the function just pushes the input
spec itself. -/
def expandSpec (spec : InputSpec) : List InputSpec := [spec]

/-- `Settings::bind`: expand the spec and insert each expansion. -/
def bindSpec (b : List (InputSpec × Action)) (spec : InputSpec) (a : Action) :
    List (InputSpec × Action) :=
  (expandSpec spec).foldl (fun acc s => bindInsert acc s a) b

/-- `Settings::getAction`: strip Num Lock and Caps Lock from the modifier
mask (`modkey_mask & ~MODKEY_NumLock & ~MODKEY_CapsLock` on a 32-bit int)
and look the spec up, returning `NullAction` on a miss. -/
def stripLocks (m : Nat) : Nat := m &&& 4294967277

def getAction (b : List (InputSpec × Action)) (event_type input_mask modkey_mask : Nat) :
    Action :=
  match findSpec b ⟨event_type, input_mask, stripLocks modkey_mask⟩ with
  | some a => a
  | none => NullAction

/-- The Settings fields the claims touch (sensitivities, pitch bounds,
distance bounds, viewpoint-duration bounds, zoom-to-mouse toggle, and the
binding table); the remaining constructor fields are not referenced by any
claim and are omitted. -/
structure Settings where
  bindings : List (InputSpec × Action)
  mouse_sens : ℝ
  keyboard_sens : ℝ
  scroll_sens : ℝ
  min_pitch : ℝ
  max_pitch : ℝ
  min_distance : ℝ
  max_distance : ℝ
  min_vp_duration_s : ℝ
  max_vp_duration_s : ℝ
  zoomToMouse : Bool

/-- The `Settings()` constructor defaults (for the modelled fields).
`DBL_MAX` is modelled by its exact double value. -/
noncomputable def defaultSettings : Settings where
  bindings := []
  mouse_sens := 1
  keyboard_sens := 1
  scroll_sens := 1
  min_pitch := -89.9
  max_pitch := -1
  min_distance := 1
  max_distance := 1.7976931348623157e308
  min_vp_duration_s := 3
  max_vp_duration_s := 8
  zoomToMouse := true

/-- Modelled from the spec: the `clamp` helper used by the mutators and by
`setDistance` is defined in a utility header that is not under src/; the
spec says mutators establish their invariants by clamping.  Modelled in
the std::clamp / osg::clampBetween form
`v < lo ? lo : v > hi ? hi : v`. -/
noncomputable def clampD (v lo hi : ℝ) : ℝ :=
  if v < lo then lo else if v > hi then hi else v

lemma clampD_mem (v lo hi : ℝ) (h : lo ≤ hi) :
    lo ≤ clampD v lo hi ∧ clampD v lo hi ≤ hi := by
  unfold clampD
  split_ifs <;> constructor <;> linarith

lemma clampD_id (v lo hi : ℝ) (h1 : lo ≤ v) (h2 : v ≤ hi) : clampD v lo hi = v := by
  unfold clampD
  split_ifs <;> linarith

/-- `Settings::setMinMaxPitch`: min pitch clamped to [-89.9, 89], max
pitch clamped to [min_pitch argument, 89]. -/
noncomputable def Settings.setMinMaxPitch (s : Settings) (mn mx : ℝ) : Settings :=
  { s with min_pitch := clampD mn (-89.9) 89, max_pitch := clampD mx mn 89 }

/-- `Settings::setMinMaxDistance`: stores both arguments unchanged. -/
def Settings.setMinMaxDistance (s : Settings) (mn mx : ℝ) : Settings :=
  { s with min_distance := mn, max_distance := mx }

/-- `Settings::setAutoViewpointDurationLimits`: min duration floored at 0,
max duration floored at the (updated) min duration. -/
noncomputable def Settings.setAutoViewpointDurationLimits (s : Settings) (mn mx : ℝ) :
    Settings :=
  { s with min_vp_duration_s := max mn 0, max_vp_duration_s := max mx (max mn 0) }

/- ------------------------------------------------------------------ -/
/- C3: settings mutator invariants -/

/-- C3 counterexample: `setMinMaxDistance` does not clamp at all — it
stores its arguments unchanged, so calling it with min 5 and max 2 leaves
the Settings with min-distance 5 > max-distance 2, violating the claimed
invariant. -/
theorem setMinMaxDistance_cex :
    ¬ ((defaultSettings.setMinMaxDistance 5 2).min_distance ≤
       (defaultSettings.setMinMaxDistance 5 2).max_distance) := by
  simp only [Settings.setMinMaxDistance]
  norm_num

/-- C3 (amended): `setMinMaxPitch` establishes
-89.9 ≤ min-pitch ≤ max-pitch ≤ 89 whenever its min-pitch argument lies in
[-89.9, 89] (outside that range the second clamp uses an inverted bound
pair and can break the ordering); `setMinMaxDistance` stores its arguments
unchanged, so min-distance ≤ max-distance holds only when the arguments
are already ordered; `setAutoViewpointDurationLimits` establishes
0 ≤ min-duration ≤ max-duration unconditionally by clamping.  No mutator
rejects a call. -/
theorem settings_mutators_clamp :
    (∀ (s : Settings) (mn mx : ℝ), -89.9 ≤ mn → mn ≤ 89 →
      -89.9 ≤ (s.setMinMaxPitch mn mx).min_pitch ∧
      (s.setMinMaxPitch mn mx).min_pitch ≤ (s.setMinMaxPitch mn mx).max_pitch ∧
      (s.setMinMaxPitch mn mx).max_pitch ≤ 89) ∧
    (∀ (s : Settings) (mn mx : ℝ),
      (s.setMinMaxDistance mn mx).min_distance = mn ∧
      (s.setMinMaxDistance mn mx).max_distance = mx) ∧
    (∀ (s : Settings) (mn mx : ℝ),
      0 ≤ (s.setAutoViewpointDurationLimits mn mx).min_vp_duration_s ∧
      (s.setAutoViewpointDurationLimits mn mx).min_vp_duration_s ≤
        (s.setAutoViewpointDurationLimits mn mx).max_vp_duration_s) := by
  refine ⟨?_, ?_, ?_⟩
  · intro s mn mx h1 h2
    simp only [Settings.setMinMaxPitch]
    have hmin : clampD mn (-89.9) 89 = mn := clampD_id mn (-89.9) 89 h1 h2
    have hmax := clampD_mem mx mn 89 h2
    rw [hmin]
    exact ⟨h1, hmax.1, hmax.2⟩
  · intro s mn mx
    exact ⟨rfl, rfl⟩
  · intro s mn mx
    simp only [Settings.setAutoViewpointDurationLimits]
    exact ⟨le_max_right _ _, le_max_right _ _⟩

/-- C3 witness: the amended theorem applied at min-pitch -45, max-pitch
-120 (clamped up to -45), distances 2/7, durations -1/0.5. -/
theorem settings_mutators_clamp_witness :
    ((-89.9 : ℝ) ≤ -45 ∧ (-45 : ℝ) ≤ 89) ∧
    (-89.9 ≤ (defaultSettings.setMinMaxPitch (-45) (-120)).min_pitch ∧
      (defaultSettings.setMinMaxPitch (-45) (-120)).min_pitch ≤
        (defaultSettings.setMinMaxPitch (-45) (-120)).max_pitch ∧
      (defaultSettings.setMinMaxPitch (-45) (-120)).max_pitch ≤ 89) ∧
    ((defaultSettings.setMinMaxDistance 2 7).min_distance = 2 ∧
      (defaultSettings.setMinMaxDistance 2 7).max_distance = 7) ∧
    (0 ≤ (defaultSettings.setAutoViewpointDurationLimits (-1) 0.5).min_vp_duration_s ∧
      (defaultSettings.setAutoViewpointDurationLimits (-1) 0.5).min_vp_duration_s ≤
        (defaultSettings.setAutoViewpointDurationLimits (-1) 0.5).max_vp_duration_s) :=
  ⟨⟨by norm_num, by norm_num⟩,
    settings_mutators_clamp.1 defaultSettings (-45) (-120) (by norm_num) (by norm_num),
    settings_mutators_clamp.2.1 defaultSettings 2 7,
    settings_mutators_clamp.2.2 defaultSettings (-1) 0.5⟩

/- ------------------------------------------------------------------ -/
/- C5 / C10: binding lookup and the Num Lock / Caps Lock bits -/

lemma lockMask_val : MODKEY_NumLock ||| MODKEY_CapsLock = 18 := by decide

lemma stripMask_testBit_true (i : Nat) (h1 : i ≠ 1) (h4 : i ≠ 4) (h32 : i < 32) :
    Nat.testBit 4294967277 i = true := by
  interval_cases i <;> first | decide | (exact absurd rfl h1) | (exact absurd rfl h4)

lemma stripMask_testBit_hi (i : Nat) (h32 : 32 ≤ i) :
    Nat.testBit 4294967277 i = false := by
  apply Nat.testBit_lt_two_pow
  calc (4294967277 : Nat) < 2 ^ 32 := by norm_num
    _ ≤ 2 ^ i := Nat.pow_le_pow_right (by norm_num) h32

lemma stripLocks_congr (m r : Nat)
    (h : ∀ i : Nat, i ≠ 1 → i ≠ 4 → m.testBit i = r.testBit i) :
    stripLocks m = stripLocks r := by
  unfold stripLocks
  apply Nat.eq_of_testBit_eq
  intro i
  rw [Nat.testBit_land, Nat.testBit_land]
  by_cases h1 : i = 1
  · subst h1
    rw [(by decide : Nat.testBit 4294967277 1 = false)]
    simp
  · by_cases h4 : i = 4
    · subst h4
      rw [(by decide : Nat.testBit 4294967277 4 = false)]
      simp
    · rw [h i h1 h4]

lemma stripLocks_id (r : Nat) (hlock : r &&& 18 = 0) (hlt : r < 4294967296) :
    stripLocks r = r := by
  unfold stripLocks
  apply Nat.eq_of_testBit_eq
  intro i
  rw [Nat.testBit_land]
  have hbit : ∀ j : Nat, Nat.testBit 18 j = true → r.testBit j = false := by
    intro j hj
    have := congrArg (fun n => Nat.testBit n j) hlock
    simp only [Nat.testBit_land, Nat.zero_testBit] at this
    rw [hj, Bool.and_true] at this
    exact this
  by_cases h1 : i = 1
  · subst h1
    rw [hbit 1 (by decide)]
    simp
  · by_cases h4 : i = 4
    · subst h4
      rw [hbit 4 (by decide)]
      simp
    · by_cases h32 : i < 32
      · rw [stripMask_testBit_true i h1 h4 h32, Bool.and_true]
      · push_neg at h32
        have hr2 : r < 2 ^ i := by
          calc r < 2 ^ 32 := by norm_num at hlt ⊢; omega
            _ ≤ 2 ^ i := Nat.pow_le_pow_right (by norm_num) h32
        rw [Nat.testBit_lt_two_pow hr2]
        simp

/-- C5: a binding registered under a modifier mask with the Num Lock and
Caps Lock bits clear is found by `getAction` for every query mask that
differs from the registered mask only in those two bits; and when no
binding matches the (stripped) query, `getAction` returns the sentinel
`NullAction` rather than failing. -/
theorem getAction_modkey_invariance :
    (∀ (B : List (InputSpec × Action)) (et im r m : Nat) (a : Action),
      findSpec B ⟨et, im, r⟩ = some a →
      r &&& (MODKEY_NumLock ||| MODKEY_CapsLock) = 0 →
      r < 4294967296 →
      (∀ i : Nat, i ≠ 1 → i ≠ 4 → m.testBit i = r.testBit i) →
      getAction B et im m = a) ∧
    (∀ (B : List (InputSpec × Action)) (et im m : Nat),
      findSpec B ⟨et, im, stripLocks m⟩ = none → getAction B et im m = NullAction) := by
  constructor
  · intro B et im r m a hfind hlock hlt hbits
    rw [lockMask_val] at hlock
    unfold getAction
    rw [stripLocks_congr m r hbits, stripLocks_id r hlock hlt, hfind]
  · intro B et im m hmiss
    unfold getAction
    rw [hmiss]

/-- Sample binding table for the C5 witness: scroll-up bound to zoom-in at
modifier mask 0. -/
def scrollUpBindings : List (InputSpec × Action) :=
  bindSpec [] ⟨EVENT_SCROLL, Direction.toMask DIR_UP, 0⟩ (mkAction ACTION_ZOOM_IN [])

lemma testBit_18_iff (i : Nat) (h1 : i ≠ 1) (h4 : i ≠ 4) :
    Nat.testBit 18 i = false := by
  by_cases h32 : i < 32
  · interval_cases i <;> first | decide | (exact absurd rfl h1) | (exact absurd rfl h4)
  · push_neg at h32
    apply Nat.testBit_lt_two_pow
    calc (18 : Nat) < 2 ^ 32 := by norm_num
      _ ≤ 2 ^ i := Nat.pow_le_pow_right (by norm_num) h32

/-- C5 witness: zoom-in bound at modifier mask 0 is found with a query
mask of 18 (Num Lock and Caps Lock both set). -/
theorem getAction_modkey_invariance_witness :
    getAction scrollUpBindings EVENT_SCROLL (Direction.toMask DIR_UP) 18 =
      mkAction ACTION_ZOOM_IN [] :=
  getAction_modkey_invariance.1 scrollUpBindings EVENT_SCROLL (Direction.toMask DIR_UP)
    0 18 (mkAction ACTION_ZOOM_IN []) rfl (by decide) (by norm_num)
    (fun i h1 h4 => by rw [Nat.zero_testBit, testBit_18_iff i h1 h4])

lemma stripLocks_land_18 (q : Nat) : stripLocks q &&& 18 = 0 := by
  unfold stripLocks
  rw [Nat.land_assoc]
  rw [(by decide : (4294967277 : Nat) &&& 18 = 0)]
  simp

lemma findSpec_none_of_ne (B : List (InputSpec × Action)) (s : InputSpec)
    (h : ∀ p ∈ B, p.1 ≠ s) : findSpec B s = none := by
  induction B with
  | nil => rfl
  | cons p rest ih =>
    unfold findSpec
    have hne : p.1.equivOp s = false := by
      rw [Bool.eq_false_iff, Ne, InputSpec.equivOp_iff_eq]
      exact h p (List.mem_cons_self p rest)
    rw [hne]
    simp only [Bool.false_eq_true, if_false]
    exact ih (fun q hq => h q (List.mem_cons_of_mem p hq))

/-- C10: a binding whose modifier mask has the Num Lock or Caps Lock bit
set is unreachable through `getAction`: every query mask is stripped of
those bits before the map lookup, the map key comparison
(`InputSpec::operator<`) uses the raw masks, so no stripped query key is
ever equivalent to such a binding's key; consequently a table containing
only such bindings always yields `NullAction` — even though
`InputSpec::operator==` (which ignores Num Lock) can equate the specs. -/
theorem locked_binding_unreachable :
    (∀ m q : Nat, m &&& (MODKEY_NumLock ||| MODKEY_CapsLock) ≠ 0 → stripLocks q ≠ m) ∧
    (∀ B : List (InputSpec × Action),
      (∀ p ∈ B, p.1.modkey_mask &&& (MODKEY_NumLock ||| MODKEY_CapsLock) ≠ 0) →
      ∀ et im q, getAction B et im q = NullAction) ∧
    (∀ et im : Nat, InputSpec.eqOp ⟨et, im, MODKEY_NumLock⟩ ⟨et, im, 0⟩ = true) := by
  have hstrip : ∀ m q : Nat, m &&& 18 ≠ 0 → stripLocks q ≠ m := by
    intro m q hm heq
    exact hm (heq ▸ stripLocks_land_18 q)
  refine ⟨?_, ?_, ?_⟩
  · intro m q hm
    rw [lockMask_val] at hm
    exact hstrip m q hm
  · intro B hB et im q
    unfold getAction
    have hnone : findSpec B ⟨et, im, stripLocks q⟩ = none := by
      apply findSpec_none_of_ne
      intro p hp hpk
      have hm := hB p hp
      rw [lockMask_val] at hm
      exact hstrip p.1.modkey_mask q hm (by rw [hpk])
    rw [hnone]
  · intro et im
    simp [InputSpec.eqOp, MODKEY_NumLock]

/-- Binding table for the C10 witness: a single key binding registered
with the Num Lock bit set in its modifier mask. -/
def numLockBindings : List (InputSpec × Action) :=
  bindSpec [] ⟨EVENT_KEY_DOWN, 32, MODKEY_NumLock⟩ (mkAction ACTION_HOME [])

/-- C10 witness: the Num Lock-masked binding is never returned — both the
raw query mask 16 and the cleared mask 0 give the null action. -/
theorem locked_binding_unreachable_witness :
    getAction numLockBindings EVENT_KEY_DOWN 32 MODKEY_NumLock = NullAction ∧
    getAction numLockBindings EVENT_KEY_DOWN 32 0 = NullAction :=
  ⟨locked_binding_unreachable.2.1 numLockBindings (by decide) EVENT_KEY_DOWN 32
      MODKEY_NumLock,
    locked_binding_unreachable.2.1 numLockBindings (by decide) EVENT_KEY_DOWN 32 0⟩

/- ------------------------------------------------------------------ -/
/- C6: click classification -/

/-- The camera render area (offset and extent), as queried by `ndc`. -/
structure RenderArea where
  ox : ℤ
  oy : ℤ
  w : ℤ
  h : ℤ

/-- A recorded pointer event: window coordinates plus a timestamp in
nanoseconds (vsg::time_point has nanosecond resolution).  Window offsets
(`_windowOffsets`) are empty in the claims' scenarios, so
`cameraRenderAreaCoordinates` is the identity on (x, y). -/
structure PointerEv where
  x : ℤ
  y : ℤ
  time : ℤ

/-- `MapManipulator::ndc`: non-dimensional window coordinates. -/
noncomputable def ndc (ra : RenderArea) (px py : ℤ) : ℝ × ℝ :=
  let aspectRatio : ℝ := (ra.w : ℝ) / (ra.h : ℝ)
  (if 0 < ra.w then (((px - ra.ox : ℤ) : ℝ) / (ra.w : ℝ) * 2 - 1) * aspectRatio else 0,
   if 0 < ra.h then ((py - ra.oy : ℤ) : ℝ) / (ra.h : ℝ) * 2 - 1 else 0)

/-- The NDC displacement magnitude between the press and release. -/
noncomputable def clickLen (ra : RenderArea) (press rel : PointerEv) : ℝ :=
  let down := ndc ra press.x press.y
  let up := ndc ra rel.x rel.y
  Real.sqrt ((up.1 - down.1) * (up.1 - down.1) + (up.2 - down.2) * (up.2 - down.2))

/-- The press-to-release time, truncated to whole milliseconds by
`duration_cast<milliseconds>` (C++ integer division toward zero). -/
def clickMillis (press rel : PointerEv) : ℤ := Int.tdiv (rel.time - press.time) 1000000

/-- `MapManipulator::isMouseClick` (given that both a press and a release
are recorded): the pair is a click iff the NDC displacement magnitude is
below the truncated elapsed milliseconds times 0.001, times the velocity
threshold 0.1. -/
noncomputable def isMouseClick (ra : RenderArea) (press rel : PointerEv) : Prop :=
  clickLen ra press rel < ((clickMillis press rel : ℝ) * 0.001) * 0.1

/-- C6 counterexample: a press/release pair with zero displacement and a
strictly positive elapsed time of half a millisecond is NOT classified as
a click, because the elapsed time is truncated to whole milliseconds
(here 0) before the velocity comparison. -/
theorem isMouseClick_submilli_cex :
    (PointerEv.mk 50 50 0).x = (PointerEv.mk 50 50 500000).x ∧
    (PointerEv.mk 50 50 0).y = (PointerEv.mk 50 50 500000).y ∧
    (0 : ℤ) < (PointerEv.mk 50 50 500000).time - (PointerEv.mk 50 50 0).time ∧
    ¬ isMouseClick ⟨0, 0, 100, 100⟩ ⟨50, 50, 0⟩ ⟨50, 50, 500000⟩ := by
  refine ⟨rfl, rfl, by norm_num, ?_⟩
  unfold isMouseClick clickLen clickMillis
  have hmillis : Int.tdiv ((500000 : ℤ) - 0) 1000000 = 0 := by decide
  simp only [hmillis]
  rw [sub_self, sub_self]
  norm_num

lemma clickMillis_le (press rel : PointerEv) (h : press.time ≤ rel.time) :
    (clickMillis press rel : ℝ) * 1000000 ≤ ((rel.time - press.time : ℤ) : ℝ) := by
  unfold clickMillis
  obtain ⟨n, hn⟩ := Int.eq_ofNat_of_zero_le (by omega : (0 : ℤ) ≤ rel.time - press.time)
  rw [hn, show (1000000 : ℤ) = ((1000000 : ℕ) : ℤ) from rfl, ← Int.ofNat_tdiv]
  have hb : n / 1000000 * 1000000 ≤ n := Nat.div_mul_le_self n 1000000
  exact_mod_cast hb

/-- C6 (amended): `isMouseClick` classifies the pair as a click iff the
NDC displacement magnitude is strictly below 0.1 times the elapsed time
truncated to whole milliseconds; consequently a zero-displacement pair is
always a click once at least one full millisecond has elapsed (a
sub-millisecond pair is not, by `isMouseClick_submilli_cex`), and a pair
whose displacement is at least elapsedSeconds * 0.1 is never a click. -/
theorem isMouseClick_threshold :
    (∀ (ra : RenderArea) (press rel : PointerEv),
      isMouseClick ra press rel ↔
        clickLen ra press rel < ((clickMillis press rel : ℝ) * 0.001) * 0.1) ∧
    (∀ (ra : RenderArea) (press rel : PointerEv),
      press.x = rel.x → press.y = rel.y → 1000000 ≤ rel.time - press.time →
      isMouseClick ra press rel) ∧
    (∀ (ra : RenderArea) (press rel : PointerEv),
      press.time ≤ rel.time →
      ((rel.time - press.time : ℤ) : ℝ) * 0.000000001 * 0.1 ≤ clickLen ra press rel →
      ¬ isMouseClick ra press rel) := by
  refine ⟨fun ra press rel => Iff.rfl, ?_, ?_⟩
  · intro ra press rel hx hy ht
    unfold isMouseClick
    have hlen : clickLen ra press rel = 0 := by
      simp [clickLen, hx, hy]
    rw [hlen]
    have h1 : (1 : ℤ) ≤ clickMillis press rel := by
      unfold clickMillis
      obtain ⟨n, hn⟩ := Int.eq_ofNat_of_zero_le (by omega : (0 : ℤ) ≤ rel.time - press.time)
      rw [hn, show (1000000 : ℤ) = ((1000000 : ℕ) : ℤ) from rfl, ← Int.ofNat_tdiv]
      have hnn : 1000000 ≤ n := by omega
      have : 1 ≤ n / 1000000 := (Nat.one_le_div_iff (by norm_num)).mpr hnn
      exact_mod_cast this
    have h1r : (1 : ℝ) ≤ (clickMillis press rel : ℝ) := by exact_mod_cast h1
    nlinarith
  · intro ra press rel ht hlen hclick
    unfold isMouseClick at hclick
    have hmul := clickMillis_le press rel ht
    nlinarith

/-- C6 witness: a 5-millisecond zero-displacement pair is a click, and a
pair displaced by a full NDC unit over 1 second is not. -/
theorem isMouseClick_threshold_witness :
    isMouseClick ⟨0, 0, 100, 100⟩ ⟨20, 30, 0⟩ ⟨20, 30, 5000000⟩ ∧
    ¬ isMouseClick ⟨0, 0, 100, 100⟩ ⟨0, 50, 0⟩ ⟨100, 50, 1000000000⟩ := by
  constructor
  · exact isMouseClick_threshold.2.1 ⟨0, 0, 100, 100⟩ ⟨20, 30, 0⟩ ⟨20, 30, 5000000⟩
      rfl rfl (by norm_num)
  · apply isMouseClick_threshold.2.2 ⟨0, 0, 100, 100⟩ ⟨0, 50, 0⟩ ⟨100, 50, 1000000000⟩
      (by norm_num)
    unfold clickLen ndc
    norm_num
    rw [show (4 : ℝ) = 2 ^ 2 by norm_num, Real.sqrt_sq (by norm_num : (0 : ℝ) ≤ 2)]
    norm_num

/- ------------------------------------------------------------------ -/
/- C4: the task scheduler -/

/-- Task types: `NONE -> {PAN, ROTATE, ZOOM} -> NONE`. -/
inductive TaskType where
  | TASK_NONE
  | TASK_PAN
  | TASK_ROTATE
  | TASK_ZOOM
deriving DecidableEq

open TaskType

/-- The single task slot: type, 2-D rate vector, remaining duration in
seconds, last-service timestamp in nanoseconds. -/
structure Task where
  type : TaskType
  deltaX : ℝ
  deltaY : ℝ
  duration_s : ℝ
  time_last_service : ℤ

/-- `to_seconds`: nanosecond count times 1e-9. -/
noncomputable def toSeconds (n : ℤ) : ℝ := (n : ℝ) * 0.000000001

/-- `Task::set` as called from `handleAction`.  Modelled from the spec:
the Task member functions live in the missing header; `set` stores the
type, rate vector, duration and registration time. -/
def Task.setTask (_t : Task) (ty : TaskType) (dx dy dur : ℝ) (time : ℤ) : Task :=
  ⟨ty, dx, dy, dur, time⟩

/-- One `serviceTask` tick at time `now`.  The second component is the
(dx, dy) delta dispatched to the matching motion algorithm this tick
((0,0) when nothing was dispatched). -/
noncomputable def serviceTaskStep (t : Task) (now : ℤ) : Task × (ℝ × ℝ) :=
  if t.type ≠ TASK_NONE then
    let dt0 := toSeconds (now - t.time_last_service)
    if dt0 > 0 then
      let dt := min dt0 t.duration_s
      let dur' := t.duration_s - dt
      (⟨if dur' ≤ 0 then TASK_NONE else t.type, t.deltaX, t.deltaY, dur', now⟩,
        (t.deltaX * dt, t.deltaY * dt))
    else (t, (0, 0))
  else (t, (0, 0))

/-- Repeated `serviceTask` ticks, accumulating the dispatched deltas. -/
noncomputable def runTaskFrom (t : Task) (acc : ℝ × ℝ) : List ℤ → Task × (ℝ × ℝ)
  | [] => (t, acc)
  | now :: rest =>
    runTaskFrom (serviceTaskStep t now).1
      (acc.1 + (serviceTaskStep t now).2.1, acc.2 + (serviceTaskStep t now).2.2) rest

noncomputable def runTask (t : Task) (times : List ℤ) : Task × (ℝ × ℝ) :=
  runTaskFrom t (0, 0) times

lemma runTaskFrom_none (times : List ℤ) (t : Task) (acc : ℝ × ℝ)
    (h : t.type = TASK_NONE) :
    runTaskFrom t acc times = (t, acc) := by
  induction times generalizing acc with
  | nil => rfl
  | cons now rest ih =>
    unfold runTaskFrom serviceTaskStep
    rw [if_neg (by simp [h])]
    simpa using ih _

lemma toSeconds_pos (a b : ℤ) (h : a < b) : 0 < toSeconds (b - a) := by
  unfold toSeconds
  have h1 : (1 : ℝ) ≤ ((b - a : ℤ) : ℝ) := by exact_mod_cast by omega
  nlinarith

lemma runTaskFrom_decay (times : List ℤ) (ty : TaskType) (rX rY D : ℝ) (t0 : ℤ)
    (accX accY : ℝ) (hty : ty ≠ TASK_NONE) (hD : 0 < D)
    (hchain : List.Chain (· < ·) t0 times)
    (hsum : D ≤ toSeconds ((t0 :: times).getLast (List.cons_ne_nil t0 times) - t0)) :
    (runTaskFrom ⟨ty, rX, rY, D, t0⟩ (accX, accY) times).1.type = TASK_NONE ∧
    (runTaskFrom ⟨ty, rX, rY, D, t0⟩ (accX, accY) times).2.1 = accX + rX * D ∧
    (runTaskFrom ⟨ty, rX, rY, D, t0⟩ (accX, accY) times).2.2 = accY + rY * D := by
  induction times generalizing ty rX rY D t0 accX accY with
  | nil =>
    exfalso
    simp only [List.getLast_singleton, sub_self] at hsum
    unfold toSeconds at hsum
    norm_num at hsum
    linarith
  | cons now rest ih =>
    rcases List.chain_cons.mp hchain with ⟨hlt, hchain'⟩
    have hdt0 : 0 < toSeconds (now - t0) := toSeconds_pos t0 now hlt
    unfold runTaskFrom serviceTaskStep
    rw [if_pos (by simp [hty]), if_pos hdt0]
    by_cases hfin : D ≤ toSeconds (now - t0)
    · have hmin : min (toSeconds (now - t0)) D = D := min_eq_right hfin
      simp only [hmin, sub_self, le_refl, if_pos]
      have hrest := runTaskFrom_none rest
        ⟨TASK_NONE, rX, rY, 0, now⟩ (accX + rX * D, accY + rY * D) rfl
      rw [hrest]
      exact ⟨rfl, rfl, rfl⟩
    · push_neg at hfin
      have hmin : min (toSeconds (now - t0)) D = toSeconds (now - t0) :=
        min_eq_left (le_of_lt hfin)
      have hpos : ¬ (D - toSeconds (now - t0) ≤ 0) := by linarith
      simp only [hmin, if_neg hpos]
      have hlast : (t0 :: now :: rest).getLast (List.cons_ne_nil _ _) =
          (now :: rest).getLast (List.cons_ne_nil _ _) :=
        List.getLast_cons (List.cons_ne_nil _ _)
      have hsum' : D - toSeconds (now - t0) ≤
          toSeconds ((now :: rest).getLast (List.cons_ne_nil now rest) - now) := by
        rw [hlast] at hsum
        unfold toSeconds at hsum ⊢
        have : (((now :: rest).getLast (List.cons_ne_nil now rest) - now : ℤ) : ℝ) =
            (((now :: rest).getLast (List.cons_ne_nil now rest) - t0 : ℤ) : ℝ) -
            ((now - t0 : ℤ) : ℝ) := by push_cast; ring
        rw [this]
        unfold toSeconds at hdt0
        nlinarith
      have := ih ty rX rY (D - toSeconds (now - t0)) now
        (accX + rX * toSeconds (now - t0)) (accY + rY * toSeconds (now - t0))
        hty (by linarith) hchain' hsum'
      refine ⟨this.1, ?_, ?_⟩
      · rw [this.2.1]; ring
      · rw [this.2.2]; ring

/-- C4: each tick of an active task dispatches the rate scaled by
dt = min(elapsed since last service, remaining duration); and for a task
registered with rate (rX, rY) and duration D > 0, any sequence of ticks
at strictly increasing times whose total elapsed time reaches D
dispatches a total delta of exactly (rX * D, rY * D) and leaves the task
in the NONE state. -/
theorem serviceTask_total_decay :
    (∀ (t : Task) (now : ℤ), t.type ≠ TASK_NONE →
      0 < toSeconds (now - t.time_last_service) →
      (serviceTaskStep t now).2 =
        (t.deltaX * min (toSeconds (now - t.time_last_service)) t.duration_s,
         t.deltaY * min (toSeconds (now - t.time_last_service)) t.duration_s)) ∧
    (∀ (t : Task) (ty : TaskType) (rX rY D : ℝ) (t0 : ℤ) (times : List ℤ),
      ty ≠ TASK_NONE → 0 < D → List.Chain (· < ·) t0 times →
      D ≤ toSeconds ((t0 :: times).getLast (List.cons_ne_nil t0 times) - t0) →
      (runTask (t.setTask ty rX rY D t0) times).1.type = TASK_NONE ∧
      (runTask (t.setTask ty rX rY D t0) times).2 = (rX * D, rY * D)) := by
  constructor
  · intro t now hty hdt
    unfold serviceTaskStep
    rw [if_pos (by simp [hty]), if_pos hdt]
  · intro t ty rX rY D t0 times hty hD hchain hsum
    have h := runTaskFrom_decay times ty rX rY D t0 0 0 hty hD hchain hsum
    unfold runTask Task.setTask
    refine ⟨h.1, ?_⟩
    have h1 := h.2.1
    have h2 := h.2.2
    rw [Prod.ext_iff]
    constructor
    · rw [h1]; ring
    · rw [h2]; ring

/-- C4 witness: a zoom task with rate (2, 3) and duration 0.2 s, ticked at
0.1 s and 0.2 s, dispatches a total of (0.4, 0.6) and ends NONE. -/
theorem serviceTask_total_decay_witness :
    (runTask ((Task.mk TASK_NONE 0 0 0 0).setTask TASK_ZOOM 2 3 0.2 0)
        [100000000, 200000000]).1.type = TASK_NONE ∧
    (runTask ((Task.mk TASK_NONE 0 0 0 0).setTask TASK_ZOOM 2 3 0.2 0)
        [100000000, 200000000]).2 = (2 * 0.2, 3 * 0.2) :=
  serviceTask_total_decay.2 (Task.mk TASK_NONE 0 0 0 0) TASK_ZOOM 2 3 0.2 0
    [100000000, 200000000] (by decide) (by norm_num)
    (List.chain_cons.mpr ⟨by norm_num, List.chain_cons.mpr ⟨by norm_num, List.Chain.nil⟩⟩)
    (by
      rw [show ((0 : ℤ) :: [100000000, 200000000]).getLast
          (List.cons_ne_nil _ _) = 200000000 from rfl]
      unfold toSeconds
      norm_num)

/- ------------------------------------------------------------------ -/
/- Pose model, geospatial services, and the motion algorithms -/

instance : Sub V3 := ⟨fun a b => ⟨a.x - b.x, a.y - b.y, a.z - b.z⟩⟩

@[simp] lemma V3.add_x (a b : V3) : (a + b).x = a.x + b.x := rfl
@[simp] lemma V3.add_y (a b : V3) : (a + b).y = a.y + b.y := rfl
@[simp] lemma V3.add_z (a b : V3) : (a + b).z = a.z + b.z := rfl
@[simp] lemma V3.sub_x (a b : V3) : (a - b).x = a.x - b.x := rfl
@[simp] lemma V3.sub_y (a b : V3) : (a - b).y = a.y - b.y := rfl
@[simp] lemma V3.sub_z (a b : V3) : (a - b).z = a.z - b.z := rfl
@[simp] lemma V3.neg_x (a : V3) : (-a).x = -a.x := rfl
@[simp] lemma V3.neg_y (a : V3) : (-a).y = -a.y := rfl
@[simp] lemma V3.neg_z (a : V3) : (-a).z = -a.z := rfl
@[simp] lemma V3.smul_x (a : V3) (s : ℝ) : (a.smul s).x = a.x * s := rfl
@[simp] lemma V3.smul_y (a : V3) (s : ℝ) : (a.smul s).y = a.y * s := rfl
@[simp] lemma V3.smul_z (a : V3) (s : ℝ) : (a.smul s).z = a.z * s := rfl

/-- vsg::dquat: (x, y, z, w). -/
@[ext] structure Quat where
  x : ℝ
  y : ℝ
  z : ℝ
  w : ℝ

/-- The rotation part of a vsg::dmat4, stored as its three basis columns
(the translation column is zeroed wherever the code stores one of these,
so it is not modelled).  `getXAxis`, `getYAxis`, `getZAxis` in the code
return the columns. -/
structure M3 where
  col0 : V3
  col1 : V3
  col2 : V3

def idM3 : M3 := ⟨⟨1, 0, 0⟩, ⟨0, 1, 0⟩, ⟨0, 0, 1⟩⟩

/-- The geospatial services collaborator (CsGeospatialServices), out of
scope for the core: coordinate transforms, geocentric flag, tangent-frame
lookup, geocentric line intersection.  `localToWorld` returns the
rotation part of localToWorldMatrix (the code zeroes the translation
column whenever it stores the result). -/
structure GeoSvc where
  isGeocentric : Bool
  toCartographic : V3 → V3
  toWorld : V3 → V3
  localToWorld : V3 → M3
  intersectGeocentricLine : V3 → V3 → Option V3

/-- The manipulator's pose state (`MapManipulator::State`): center point,
center rotation frame, local yaw/pitch rotation, distance. -/
structure PoseState where
  center : V3
  centerRotation : M3
  localRotation : Quat
  distance : ℝ

/-- `MapManipulator::setCenter`: store the point and derive the
center-rotation frame from the local tangent frame at that point with
the translation removed. -/
def setCenter (g : GeoSvc) (st : PoseState) (p : V3) : PoseState :=
  { st with center := p, centerRotation := g.localToWorld p }

/-- Modelled from the spec: the floating-point near-equality helper
`equiv` used by the parallel-ray test is defined in a utility header not
under src/; it compares against a small epsilon. -/
noncomputable def equivD (a b : ℝ) : Prop := |a - b| ≤ 1e-6

noncomputable instance (a b : ℝ) : Decidable (equivD a b) :=
  inferInstanceAs (Decidable (|a - b| ≤ 1e-6))

/- ------------------------------------------------------------------ -/
/- C9: planar recentering failure is atomic -/

/-- `MapManipulator::recalculateCenterFromLookVector`.  `eye` and `look`
come from the camera's view matrix (lookAt eye and normalized look
direction); `sceneHit` is the result of the external scene-intersection
query along the look vector.  Returns the C++ bool result paired with
the (possibly updated) pose state. -/
noncomputable def recalculateCenterFromLookVector (g : GeoSvc) (eye look : V3)
    (sceneHit : Option V3) (st : PoseState) : Bool × PoseState :=
  let intersection : Option V3 :=
    match sceneHit with
    | some p => some p
    | none =>
      if g.isGeocentric then
        g.intersectGeocentricLine eye (eye + look.smul 1e10)
      else
        -- simple line/plane intersection against z = 0 with normal (0,0,1)
        let LdotN := vdot look ⟨0, 0, 1⟩
        if equivD LdotN 0 then none  -- parallel: return false
        else
          let D := vdot ((⟨0, 0, 0⟩ : V3) - eye) ⟨0, 0, 1⟩ / LdotN
          if D < 0 then none  -- behind the camera: return false
          else some (eye + look.smul D)
  match intersection with
  | some p =>
    if g.isGeocentric then
      (true, setCenter g st ((vnormalize st.center).smul (vlength p)))
    else
      (true, setCenter g st p)
  | none => (false, st)

/-- C9: in planar mode, when the scene query misses and the look ray is
parallel to the z = 0 plane or intersects it only behind the camera,
`recalculateCenterFromLookVector` returns false and leaves the whole pose
(center, center rotation, local rotation, distance) untouched. -/
theorem recalcCenter_planar_failure_atomic (g : GeoSvc) (eye look : V3)
    (st : PoseState) (hgeo : g.isGeocentric = false)
    (hdeg : look.z = 0 ∨ -eye.z / look.z < 0) :
    recalculateCenterFromLookVector g eye look none st = (false, st) := by
  unfold recalculateCenterFromLookVector
  rw [hgeo]
  have hdot : vdot look ⟨0, 0, 1⟩ = look.z := by
    unfold vdot
    ring
  have hDnum : vdot ((⟨0, 0, 0⟩ : V3) - eye) ⟨0, 0, 1⟩ = -eye.z := by
    unfold vdot
    simp
  simp only [Bool.false_eq_true, if_false, hdot, hDnum]
  by_cases heps : equivD look.z 0
  · rw [if_pos heps]
  · rw [if_neg heps]
    have hz : look.z ≠ 0 := by
      intro h0
      exact heps (by simp [equivD, h0]; norm_num)
    have hD : -eye.z / look.z < 0 := by
      rcases hdeg with h | h
      · exact absurd h hz
      · exact h
    rw [if_pos hD]

/-- Planar geospatial services for the C9 witness. -/
noncomputable def geoPlanar : GeoSvc :=
  ⟨false, fun v => v, fun v => v, fun _ => idM3, fun _ _ => none⟩

/-- Pose used by the C9 witness. -/
noncomputable def poseW : PoseState := ⟨⟨1, 2, 3⟩, idM3, ⟨0, 0, 0, 1⟩, 10⟩

/-- C9 witness: camera at height 5 looking straight up — the plane
intersection is behind the camera, the call fails, and the pose is
returned unchanged. -/
theorem recalcCenter_planar_failure_atomic_witness :
    recalculateCenterFromLookVector geoPlanar ⟨0, 0, 5⟩ ⟨0, 0, 1⟩ none poseW =
      (false, poseW) :=
  recalcCenter_planar_failure_atomic geoPlanar ⟨0, 0, 5⟩ ⟨0, 0, 1⟩ poseW rfl
    (Or.inr (by norm_num))

/- ------------------------------------------------------------------ -/
/- C8: height-preserving pan -/

/-- `MapManipulator::adjustToSameHeight`: convert both points to
cartographic coordinates, give the point the reference's height, convert
back to world space. -/
noncomputable def adjustToSameHeight (g : GeoSvc) (reference point : V3) : V3 :=
  let refCarto := g.toCartographic reference
  let pointCarto := g.toCartographic point
  g.toWorld ⟨pointCarto.x, pointCarto.y, refCarto.z⟩

/-- The translated (pre-height-adjustment) center of `pan`:
center + (x_axis * dx * scale) + (y_axis * dy * scale) with
scale = -0.3 * distance, x_axis the normalized X axis of the inverse view
matrix and y_axis orthogonal to the center frame's Z axis and x_axis. -/
noncomputable def panMoved (lookatInv : M3) (st : PoseState) (dx dy : ℝ) : V3 :=
  let scale := -0.3 * st.distance
  let x_axis := vnormalize lookatInv.col0
  let y_axis := vnormalize (vcross st.centerRotation.col2 x_axis)
  st.center + (((x_axis.smul dx).smul scale) + ((y_axis.smul dy).smul scale))

/-- `MapManipulator::pan`: move the center, re-projecting to the old
center's height in geocentric mode, then commit via `setCenter`. -/
noncomputable def pan (g : GeoSvc) (lookatInv : M3) (st : PoseState) (dx dy : ℝ) :
    PoseState :=
  let new_center := panMoved lookatInv st dx dy
  let new_center :=
    if g.isGeocentric then adjustToSameHeight g st.center new_center else new_center
  setCenter g st new_center

/-- Identity globe services for the C8 counterexample and witness:
geocentric, with toCartographic and toWorld both the identity (which
round-trips). -/
noncomputable def geoIdGlobe : GeoSvc :=
  ⟨true, fun v => v, fun v => v, fun _ => idM3, fun _ _ => none⟩

/-- Inverse view matrix for the C8 counterexample: the camera's X axis
points along world +Z. -/
noncomputable def lookCexM : M3 := ⟨⟨0, 0, 1⟩, ⟨0, 1, 0⟩, ⟨1, 0, 0⟩⟩

/-- Pose for the C8 counterexample: center on the +Z axis and a center
frame whose Z column is horizontal. -/
noncomputable def poseCex : PoseState :=
  ⟨⟨0, 0, 5⟩, ⟨⟨0, 1, 0⟩, ⟨0, 0, 1⟩, ⟨1, 0, 0⟩⟩, ⟨0, 0, 0, 1⟩, 10⟩

/-- C8 counterexample: with round-tripping (identity) cartographic
conversions, a pan whose view-space translation is purely vertical is
cancelled entirely by the height re-projection: pan(1, 0) commits a
center equal to the old center even though (dx, dy) is not (0, 0). -/
theorem pan_center_unchanged_cex :
    (pan geoIdGlobe lookCexM poseCex 1 0).center = poseCex.center ∧ (1 : ℝ) ≠ 0 := by
  constructor
  · unfold pan panMoved adjustToSameHeight setCenter geoIdGlobe lookCexM poseCex
    simp only [vnormalize, vlength, vcross, V3.smul_x, V3.smul_y, V3.smul_z]
    norm_num
  · norm_num

/-- C8 (amended): in geocentric mode, assuming toCartographic/toWorld
round-trips, the committed pan center always has the old center's
cartographic height; it equals the height-adjusted translated point, and
it differs from the old center whenever the translated point's
cartographic longitude or latitude differs from the old center's (a
purely vertical translation is cancelled, see `pan_center_unchanged_cex`). -/
theorem pan_height_preserving (g : GeoSvc) (la : M3) (st : PoseState) (dx dy : ℝ)
    (hgeo : g.isGeocentric = true)
    (hround : ∀ c : V3, g.toCartographic (g.toWorld c) = c) :
    (g.toCartographic (pan g la st dx dy).center).z =
      (g.toCartographic st.center).z ∧
    (pan g la st dx dy).center =
      g.toWorld ⟨(g.toCartographic (panMoved la st dx dy)).x,
                 (g.toCartographic (panMoved la st dx dy)).y,
                 (g.toCartographic st.center).z⟩ ∧
    (((g.toCartographic (panMoved la st dx dy)).x ≠ (g.toCartographic st.center).x ∨
      (g.toCartographic (panMoved la st dx dy)).y ≠ (g.toCartographic st.center).y) →
      (pan g la st dx dy).center ≠ st.center) := by
  have hcenter : (pan g la st dx dy).center =
      g.toWorld ⟨(g.toCartographic (panMoved la st dx dy)).x,
                 (g.toCartographic (panMoved la st dx dy)).y,
                 (g.toCartographic st.center).z⟩ := by
    unfold pan adjustToSameHeight setCenter
    rw [hgeo]
    simp
  refine ⟨?_, hcenter, ?_⟩
  · rw [hcenter, hround]
  · intro hne heq
    have := congrArg g.toCartographic heq
    rw [hcenter, hround, V3.ext_iff] at this
    rcases hne with h | h
    · exact h this.1
    · exact h this.2.1

/-- Inverse view matrix for the C8 witness (camera X axis along world X). -/
noncomputable def lookWitM : M3 := idM3

/-- Pose for the C8 witness. -/
noncomputable def poseWit : PoseState := ⟨⟨0, 0, 5⟩, idM3, ⟨0, 0, 0, 1⟩, 10⟩

/-- C8 witness: a horizontal pan(1, 0) over the identity globe keeps the
cartographic height and moves the center. -/
theorem pan_height_preserving_witness :
    (geoIdGlobe.toCartographic (pan geoIdGlobe lookWitM poseWit 1 0).center).z =
      (geoIdGlobe.toCartographic poseWit.center).z ∧
    (pan geoIdGlobe lookWitM poseWit 1 0).center ≠ poseWit.center := by
  constructor
  · exact (pan_height_preserving geoIdGlobe lookWitM poseWit 1 0 rfl
      (fun c => rfl)).1
  · apply (pan_height_preserving geoIdGlobe lookWitM poseWit 1 0 rfl
      (fun c => rfl)).2.2
    left
    unfold geoIdGlobe panMoved poseWit lookWitM idM3
    simp only [vnormalize, vlength, vcross, V3.smul_x, V3.smul_y, V3.smul_z]
    norm_num

/- ------------------------------------------------------------------ -/
/- C7: scroll wheel to zoom task to distance change -/

/-- The projection of the controller state that the scroll-zoom scenario
touches: the task slot, the camera distance, and the stored home
distance (`home()` resets the distance to it).  `pan` and `rotate` never
modify the distance, so this projection is exact for every task type. -/
structure MState where
  task : Task
  distance : ℝ
  homeDistance : ℝ

/-- `Task::reset` as called from `clearEvents`.  Modelled from the spec:
the Task member functions live in the missing header; reset deactivates
the task. -/
def Task.resetTask (t : Task) : Task := { t with type := TASK_NONE }

/-- `MapManipulator::zoom` restricted to its effect on the distance: the
orthographic branch rescales the frustum and leaves the distance alone;
with zoom-to-mouse disabled the distance is scaled by (1 + dy) and
re-clamped by `setDistance`; the zoom-to-mouse body is compiled out
(#if 0), so that path is a no-op too. -/
noncomputable def zoomDist (s : Settings) (ortho : Bool) (distance dy : ℝ) : ℝ :=
  if ortho then distance
  else if s.zoomToMouse = false then
    clampD (distance * (1 + dy)) s.min_distance s.max_distance
  else distance

/-- `MapManipulator::home` restricted to the `MState` projection:
`setDistance(_homeDistance)` plus `clearEvents` (which resets the task).
The center/rotation effects fall outside this projection. -/
noncomputable def homeM (s : Settings) (st : MState) : MState :=
  { st with
    distance := clampD st.homeDistance s.min_distance s.max_distance,
    task := st.task.resetTask }

/-- `MapManipulator::handleAction` on the `MState` projection: HOME goes
home, the PAN/ROTATE/ZOOM families register a task with the given rate,
duration and registration time, anything else is unhandled. -/
noncomputable def handleActionM (s : Settings) (a : Action) (d : ℝ × ℝ) (time : ℤ)
    (duration : ℝ) (st : MState) : Bool × MState :=
  match a.type with
  | ACTION_HOME => (true, homeM s st)
  | ACTION_PAN | ACTION_PAN_LEFT | ACTION_PAN_RIGHT | ACTION_PAN_UP | ACTION_PAN_DOWN =>
    (true, { st with task := st.task.setTask TASK_PAN d.1 d.2 duration time })
  | ACTION_ROTATE | ACTION_ROTATE_LEFT | ACTION_ROTATE_RIGHT
  | ACTION_ROTATE_UP | ACTION_ROTATE_DOWN =>
    (true, { st with task := st.task.setTask TASK_ROTATE d.1 d.2 duration time })
  | ACTION_ZOOM | ACTION_ZOOM_IN | ACTION_ZOOM_OUT =>
    (true, { st with task := st.task.setTask TASK_ZOOM d.1 d.2 duration time })
  | _ => (false, st)

/-- `MapManipulator::applyOptionsToDeltas`. -/
noncomputable def applyOptionsToDeltas (a : Action) (d : ℝ × ℝ) : ℝ × ℝ :=
  let d1 := (d.1 * a.getDoubleOption OPTION_SCALE_X 1, d.2 * a.getDoubleOption OPTION_SCALE_Y 1)
  if a.getBoolOption OPTION_SINGLE_AXIS false = true then
    if |d1.1| > |d1.2| then (d1.1, 0) else (0, d1.2)
  else d1

/-- `MapManipulator::handleScrollAction`: build the direction vector from
the action's direction, scale by the fixed scroll factor 1.5 times the
scroll sensitivity, apply the per-action options, and hand off to
`handleAction`. -/
noncomputable def handleScrollAction (s : Settings) (a : Action) (time : ℤ)
    (duration : ℝ) (st : MState) : Bool × MState :=
  let scrollFactor : ℝ := 1.5
  let d : ℝ × ℝ :=
    match a.dir with
    | DIR_LEFT => (1, 0)
    | DIR_RIGHT => (-1, 0)
    | DIR_UP => (0, -1)
    | DIR_DOWN => (0, 1)
    | DIR_NA => (0, 0)
  let d := (d.1 * (scrollFactor * s.scroll_sens), d.2 * (scrollFactor * s.scroll_sens))
  let d := applyOptionsToDeltas a d
  handleActionM s a d time duration st

/-- Scroll direction resolution in `apply(vsg::ScrollWheelEvent&)`:
horizontal delta wins, then vertical; negative y means up. -/
noncomputable def dirOfScroll (deltaX deltaY : ℝ) : Direction :=
  if deltaX < 0 then DIR_LEFT
  else if deltaX > 0 then DIR_RIGHT
  else if deltaY < 0 then DIR_UP
  else if deltaY > 0 then DIR_DOWN
  else DIR_NA

/-- `MapManipulator::apply(vsg::ScrollWheelEvent&)`: resolve the
direction, look up the action (modifier mask from the pending key press,
0 when none), read the per-action duration option (default 0.2 s), and
dispatch through `handleScrollAction`. -/
noncomputable def applyScrollWheelEvent (s : Settings) (keyMod : Option Nat)
    (deltaX deltaY : ℝ) (time : ℤ) (st : MState) : MState :=
  let dir := dirOfScroll deltaX deltaY
  let a := getAction s.bindings EVENT_SCROLL dir.toMask
    (match keyMod with | some m => m | none => 0)
  let dur := a.getDoubleOption OPTION_DURATION 0.2
  (handleScrollAction s a time dur st).2

/-- One `serviceTask` tick on the `MState` projection (the same tick as
`serviceTaskStep`, with the dispatch made explicit: a ZOOM task feeds its
per-tick dy into `zoom`, which is the only dispatch that can change the
distance). -/
noncomputable def serviceTaskM (s : Settings) (ortho : Bool) (st : MState) (now : ℤ) :
    MState :=
  if st.task.type ≠ TASK_NONE then
    let dt0 := toSeconds (now - st.task.time_last_service)
    if dt0 > 0 then
      let dt := min dt0 st.task.duration_s
      let dy := st.task.deltaY * dt
      let newDistance :=
        match st.task.type with
        | TASK_ZOOM => zoomDist s ortho st.distance dy
        | _ => st.distance
      let dur' := st.task.duration_s - dt
      { st with
        distance := newDistance,
        task := ⟨if dur' ≤ 0 then TASK_NONE else st.task.type,
          st.task.deltaX, st.task.deltaY, dur', now⟩ }
    else st
  else st

/-- Settings for the C7 counterexample and witness: scroll-up bound to
zoom-in at modifier mask 0, scroll sensitivity 1, zoom-to-mouse off. -/
noncomputable def scrollSettings : Settings :=
  { defaultSettings with bindings := scrollUpBindings, zoomToMouse := false }

/-- Controller state for the C7 counterexample: camera already at the
minimum distance (min_distance defaults to 1). -/
noncomputable def mstCex : MState := ⟨⟨TASK_NONE, 0, 0, 0, 0⟩, 1, 3.5⟩

lemma stripLocks_zero : stripLocks 0 = 0 := by decide

/-- C7 counterexample: starting from the minimum distance, the scroll
event registers the zoom task but the frame tick leaves the distance
unchanged — `setDistance` clamps 0.85 * 1 back up to min_distance = 1,
so the distance does not strictly decrease. -/
theorem scroll_zoom_min_distance_cex :
    (serviceTaskM scrollSettings false
        (applyScrollWheelEvent scrollSettings none 0 (-1) 0 mstCex) 100000000).distance =
      mstCex.distance ∧
    ¬ ((serviceTaskM scrollSettings false
        (applyScrollWheelEvent scrollSettings none 0 (-1) 0 mstCex) 100000000).distance <
      mstCex.distance) := by
  have happ : applyScrollWheelEvent scrollSettings none 0 (-1) 0 mstCex =
      ⟨⟨TASK_ZOOM, 0 * (1.5 * 1) * 1, -1 * (1.5 * 1) * 1, 0.2, 0⟩, 1, 3.5⟩ := by
    unfold applyScrollWheelEvent dirOfScroll getAction handleScrollAction handleActionM
      applyOptionsToDeltas scrollSettings defaultSettings mstCex
    rw [stripLocks_zero]
    norm_num [scrollUpBindings, bindSpec, expandSpec, bindInsert, findSpec, mkAction,
      Action.getDoubleOption, Action.getBoolOption, ActionType.dirOf, Task.setTask,
      InputSpec.equivOp, InputSpec.ltOp]
  rw [happ]
  have hdist : (serviceTaskM scrollSettings false
      ⟨⟨TASK_ZOOM, 0 * (1.5 * 1) * 1, -1 * (1.5 * 1) * 1, 0.2, 0⟩, 1, 3.5⟩
      100000000).distance = 1 := by
    unfold serviceTaskM zoomDist clampD toSeconds scrollSettings defaultSettings
    norm_num
    split_ifs <;> rfl
  rw [hdist]
  exact ⟨rfl, lt_irrefl _⟩

/-- C7 (amended): with (scroll, up) bound to ZOOM_IN at modifier mask 0,
scroll sensitivity 1, zoom-to-mouse disabled and a perspective
projection, a scroll event with delta (0, -1) resolves to direction up
and registers a ZOOM task with rate (0, -1.5) (the 1.5 scroll factor
times the sensitivity; non-zero) and duration 0.2 s without touching the
distance; a following frame tick 0.1 s later strictly decreases the
distance provided the pre-scroll distance exceeds the configured
min-distance (at the minimum the clamp cancels the decrease, see
`scroll_zoom_min_distance_cex`). -/
theorem scroll_zoom_scenario (s : Settings) (st : MState) (t : ℤ)
    (hbind : findSpec s.bindings ⟨EVENT_SCROLL, Direction.toMask DIR_UP, 0⟩ =
      some (mkAction ACTION_ZOOM_IN []))
    (hsens : s.scroll_sens = 1) (hz2m : s.zoomToMouse = false) :
    dirOfScroll 0 (-1) = DIR_UP ∧
    (applyScrollWheelEvent s none 0 (-1) t st).task = ⟨TASK_ZOOM, 0, -1.5, 0.2, t⟩ ∧
    (applyScrollWheelEvent s none 0 (-1) t st).distance = st.distance ∧
    (s.min_distance < st.distance → 0 < st.distance →
      (serviceTaskM s false (applyScrollWheelEvent s none 0 (-1) t st)
          (t + 100000000)).distance < st.distance) := by
  have hdir : dirOfScroll 0 (-1) = DIR_UP := by
    unfold dirOfScroll
    norm_num
  have hact : getAction s.bindings EVENT_SCROLL (Direction.toMask DIR_UP) 0 =
      mkAction ACTION_ZOOM_IN [] := by
    unfold getAction
    rw [stripLocks_zero, hbind]
  have happ : applyScrollWheelEvent s none 0 (-1) t st =
      { st with task := ⟨TASK_ZOOM, 0, -1.5, 0.2, t⟩ } := by
    unfold applyScrollWheelEvent
    rw [hdir]
    simp only [hact]
    unfold handleScrollAction handleActionM applyOptionsToDeltas
    simp only [mkAction, ActionType.dirOf, Action.getDoubleOption, Action.getBoolOption,
      List.find?_nil, hsens, Task.setTask]
    norm_num
  refine ⟨hdir, by rw [happ], by rw [happ], ?_⟩
  intro hmin h0
  rw [happ]
  unfold serviceTaskM
  have htype : (Task.mk TASK_ZOOM 0 (-1.5) 0.2 t).type ≠ TASK_NONE := fun h => nomatch h
  rw [if_pos htype]
  have hdt0 : toSeconds (t + 100000000 - t) = 0.1 := by
    unfold toSeconds
    have : t + 100000000 - t = (100000000 : ℤ) := by ring
    rw [this]
    norm_num
  simp only [hdt0]
  rw [if_pos (by norm_num : (0.1 : ℝ) > 0)]
  have hmin01 : min (0.1 : ℝ) 0.2 = 0.1 := by norm_num
  simp only [hmin01]
  unfold zoomDist
  rw [if_neg (by simp), if_pos hz2m]
  have hval : st.distance * (1 + -1.5 * 0.1) = st.distance * 0.85 := by ring
  rw [hval]
  unfold clampD
  split_ifs with hA hB
  · exact hmin
  · linarith
  · linarith

/-- Pre-scroll state for the C7 witness: distance 10, comfortably above
the minimum distance of 1. -/
noncomputable def mstWit : MState := ⟨⟨TASK_NONE, 0, 0, 0, 0⟩, 10, 3.5⟩

/-- C7 witness: the scenario theorem applied to the concrete settings and
a distance of 10. -/
theorem scroll_zoom_scenario_witness :
    (applyScrollWheelEvent scrollSettings none 0 (-1) 0 mstWit).task =
      ⟨TASK_ZOOM, 0, -1.5, 0.2, 0⟩ ∧
    (applyScrollWheelEvent scrollSettings none 0 (-1) 0 mstWit).distance =
      mstWit.distance ∧
    (serviceTaskM scrollSettings false
        (applyScrollWheelEvent scrollSettings none 0 (-1) 0 mstWit)
        (0 + 100000000)).distance < mstWit.distance := by
  have h := scroll_zoom_scenario scrollSettings mstWit 0
    (by
      unfold scrollSettings scrollUpBindings bindSpec expandSpec
      simp only [List.foldl]
      unfold bindInsert findSpec
      rw [if_pos (by decide : InputSpec.equivOp
        ⟨EVENT_SCROLL, Direction.toMask DIR_UP, 0⟩
        ⟨EVENT_SCROLL, Direction.toMask DIR_UP, 0⟩ = true)])
    rfl rfl
  exact ⟨h.2.1, h.2.2.1, h.2.2.2 (by unfold scrollSettings defaultSettings mstWit; norm_num)
    (by unfold mstWit; norm_num)⟩

/- ------------------------------------------------------------------ -/
/- C1: rotate and the pitch clamp -/

/-- vsg::dquat operator*: `lhs * rhs` with the OSG-inherited component
formula (q[i] from rhs[.] * lhs[.]). -/
noncomputable def vmul (l r : Quat) : Quat :=
  ⟨r.w * l.x + r.x * l.w + r.y * l.z - r.z * l.y,
   r.w * l.y - r.x * l.z + r.y * l.w + r.z * l.x,
   r.w * l.z + r.x * l.y - r.y * l.x + r.z * l.w,
   r.w * l.w - r.x * l.x - r.y * l.y - r.z * l.z⟩

/-- vsg::dquat(angle, axis): normalize the axis (identity quaternion for
a near-zero axis) and build the half-angle quaternion. -/
noncomputable def quatAxisAngle (angle : ℝ) (axis : V3) : Quat :=
  if vlength axis < 1e-7 then ⟨0, 0, 0, 1⟩
  else
    ⟨axis.x * Real.sin (0.5 * angle) * (1 / vlength axis),
     axis.y * Real.sin (0.5 * angle) * (1 / vlength axis),
     axis.z * Real.sin (0.5 * angle) * (1 / vlength axis),
     Real.cos (0.5 * angle)⟩

/-- vsg::rotate(dquat): the rotation matrix of a quaternion (columns). -/
noncomputable def quatToMat (q : Quat) : M3 :=
  ⟨⟨1 - 2 * (q.y * q.y + q.z * q.z), 2 * (q.x * q.y + q.w * q.z), 2 * (q.x * q.z - q.w * q.y)⟩,
   ⟨2 * (q.x * q.y - q.w * q.z), 1 - 2 * (q.x * q.x + q.z * q.z), 2 * (q.y * q.z + q.w * q.x)⟩,
   ⟨2 * (q.x * q.z + q.w * q.y), 2 * (q.y * q.z - q.w * q.x), 1 - 2 * (q.x * q.x + q.y * q.y)⟩⟩

/-- The pitch branch of `MapManipulator::getEulerAngles`: the look vector
is the normalized negated Z column of the rotation matrix, and the pitch
is asin of its z component. -/
noncomputable def getEulerPitch (q : Quat) : ℝ :=
  Real.arcsin (vnormalize (-(quatToMat q).col2)).z

/-- `MapManipulator::rotate`: read the current pitch, zero the pitch
delta entirely if it would leave
[min(minPitch, -89.9 deg), max(maxPitch, -0.1 deg)], then compose the
local rotation with an elevation rotation about the frame's X axis and
an azimuth rotation about world up. -/
noncomputable def rotateOp (s : Settings) (dx dy : ℝ) (q : Quat) : Quat :=
  vmul
    (vmul q
      (quatAxisAngle
        (if dy + getEulerPitch q > radiansOf (max s.max_pitch (-0.1)) ∨
            dy + getEulerPitch q < radiansOf (min s.min_pitch (-89.9)) then 0 else dy)
        (quatToMat q).col0))
    (quatAxisAngle (-dx) ⟨0, 0, 1⟩)

/-- A sequence of `rotate` calls applied to a local rotation. -/
noncomputable def rotSeq (s : Settings) (ms : List (ℝ × ℝ)) (q : Quat) : Quat :=
  ms.foldl (fun acc m => rotateOp s m.1 m.2 acc) q

/-- Hamilton quaternion product, used only in the analysis: vsg's
`l * r` is `hmul r l` (`vmul_eq_hmul`). -/
noncomputable def hmul (a b : Quat) : Quat :=
  ⟨a.w * b.x + a.x * b.w + a.y * b.z - a.z * b.y,
   a.w * b.y - a.x * b.z + a.y * b.w + a.z * b.x,
   a.w * b.z + a.x * b.y - a.y * b.x + a.z * b.w,
   a.w * b.w - a.x * b.x - a.y * b.y - a.z * b.z⟩

/-- Rotation about world Z by θ (half-angle form), analysis helper. -/
noncomputable def qzQ (θ : ℝ) : Quat := ⟨0, 0, Real.sin (θ / 2), Real.cos (θ / 2)⟩

/-- Rotation about world X by θ (half-angle form), analysis helper. -/
noncomputable def qxQ (θ : ℝ) : Quat := ⟨Real.sin (θ / 2), 0, 0, Real.cos (θ / 2)⟩

/-- The yaw-pitch (roll-free) quaternions: exactly the local rotations
the manipulator itself constructs (identity at home, preserved by
`rotate`).  The pose with yaw α and frame angle ψ (decoded pitch
ψ - π/2). -/
noncomputable def canonicalQ (α ψ : ℝ) : Quat := hmul (qzQ α) (qxQ ψ)

lemma vmul_eq_hmul (l r : Quat) : vmul l r = hmul r l := rfl

lemma hmul_assoc (a b c : Quat) : hmul (hmul a b) c = hmul a (hmul b c) := by
  ext <;> (simp only [hmul]; ring)

lemma hmul_one_left (q : Quat) : hmul ⟨0, 0, 0, 1⟩ q = q := by
  ext <;> (simp only [hmul]; ring)

lemma qz_mul (a b : ℝ) : hmul (qzQ a) (qzQ b) = qzQ (a + b) := by
  ext <;> simp only [hmul, qzQ]
  · ring
  · ring
  · rw [show (a + b) / 2 = a / 2 + b / 2 by ring, Real.sin_add]
    ring
  · rw [show (a + b) / 2 = a / 2 + b / 2 by ring, Real.cos_add]
    ring

lemma qx_mul (a b : ℝ) : hmul (qxQ a) (qxQ b) = qxQ (a + b) := by
  ext <;> simp only [hmul, qxQ]
  · rw [show (a + b) / 2 = a / 2 + b / 2 by ring, Real.sin_add]
    ring
  · ring
  · ring
  · rw [show (a + b) / 2 = a / 2 + b / 2 by ring, Real.cos_add]
    ring

lemma qz_neg_mul (a : ℝ) : hmul (qzQ (-a)) (qzQ a) = ⟨0, 0, 0, 1⟩ := by
  rw [qz_mul]
  unfold qzQ
  norm_num

lemma cos_full (x : ℝ) : Real.cos x = 2 * Real.cos (x / 2) ^ 2 - 1 := by
  have h := Real.cos_two_mul (x / 2)
  rw [show 2 * (x / 2) = x by ring] at h
  linarith

lemma sin_full (x : ℝ) : Real.sin x = 2 * Real.sin (x / 2) * Real.cos (x / 2) := by
  have h := Real.sin_two_mul (x / 2)
  rw [show 2 * (x / 2) = x by ring] at h
  exact h

lemma canonical_components (α ψ : ℝ) :
    canonicalQ α ψ =
      ⟨Real.cos (α / 2) * Real.sin (ψ / 2), Real.sin (α / 2) * Real.sin (ψ / 2),
       Real.sin (α / 2) * Real.cos (ψ / 2), Real.cos (α / 2) * Real.cos (ψ / 2)⟩ := by
  ext <;> (simp only [canonicalQ, hmul, qzQ, qxQ]; ring)

lemma canonical_col0 (α ψ : ℝ) :
    (quatToMat (canonicalQ α ψ)).col0 = ⟨Real.cos α, Real.sin α, 0⟩ := by
  have pythA := Real.sin_sq_add_cos_sq (α / 2)
  have pythH := Real.sin_sq_add_cos_sq (ψ / 2)
  rw [canonical_components]
  unfold quatToMat
  ext
  · rw [cos_full α]
    simp only
    linear_combination (-2 : ℝ) * pythA + (-2 * Real.sin (α / 2) ^ 2) * pythH
  · rw [sin_full α]
    simp only
    linear_combination (2 * Real.sin (α / 2) * Real.cos (α / 2)) * pythH
  · simp only
    ring

lemma canonical_col2 (α ψ : ℝ) :
    (quatToMat (canonicalQ α ψ)).col2 =
      ⟨Real.sin α * Real.sin ψ, -(Real.cos α * Real.sin ψ), Real.cos ψ⟩ := by
  have pythA := Real.sin_sq_add_cos_sq (α / 2)
  have pythH := Real.sin_sq_add_cos_sq (ψ / 2)
  rw [canonical_components]
  unfold quatToMat
  ext
  · rw [sin_full α, sin_full ψ]
    simp only
    ring
  · rw [cos_full α, sin_full ψ]
    simp only
    linear_combination (2 * Real.sin (ψ / 2) * Real.cos (ψ / 2)) * pythA
  · rw [cos_full ψ]
    simp only
    linear_combination (-2 * Real.sin (ψ / 2) ^ 2) * pythA + (-2 : ℝ) * pythH

lemma getEulerPitch_canonical_gen (α ψ : ℝ) :
    getEulerPitch (canonicalQ α ψ) = Real.arcsin (-(Real.cos ψ)) := by
  unfold getEulerPitch
  rw [canonical_col2]
  have hlen : vlength (-(V3.mk (Real.sin α * Real.sin ψ) (-(Real.cos α * Real.sin ψ))
      (Real.cos ψ))) = 1 := by
    unfold vlength
    simp only [V3.neg_x, V3.neg_y, V3.neg_z]
    rw [show -(Real.sin α * Real.sin ψ) * -(Real.sin α * Real.sin ψ) +
        - -(Real.cos α * Real.sin ψ) * - -(Real.cos α * Real.sin ψ) +
        -Real.cos ψ * -Real.cos ψ = 1 by
      linear_combination Real.sin ψ ^ 2 * Real.sin_sq_add_cos_sq α +
        Real.sin_sq_add_cos_sq ψ]
    exact Real.sqrt_one
  unfold vnormalize
  rw [hlen]
  norm_num

lemma getEulerPitch_canonical (α p : ℝ) (h1 : -(π / 2) ≤ p) (h2 : p ≤ π / 2) :
    getEulerPitch (canonicalQ α (p + π / 2)) = p := by
  rw [getEulerPitch_canonical_gen, Real.cos_add_pi_div_two, neg_neg,
    Real.arcsin_sin h1 h2]

lemma quatAxisAngle_tangent (θ α : ℝ) :
    quatAxisAngle θ ⟨Real.cos α, Real.sin α, 0⟩ =
      ⟨Real.cos α * Real.sin (θ / 2), Real.sin α * Real.sin (θ / 2), 0,
       Real.cos (θ / 2)⟩ := by
  unfold quatAxisAngle
  have hlen : vlength ⟨Real.cos α, Real.sin α, 0⟩ = 1 := by
    unfold vlength
    rw [show Real.cos α * Real.cos α + Real.sin α * Real.sin α + 0 * 0 = 1 by
      linear_combination Real.sin_sq_add_cos_sq α]
    exact Real.sqrt_one
  rw [hlen, if_neg (by norm_num : ¬ (1 : ℝ) < 1e-7)]
  ext <;> simp only <;> rw [show 0.5 * θ = θ / 2 by ring] <;> ring

lemma quatAxisAngle_up (θ : ℝ) : quatAxisAngle θ ⟨0, 0, 1⟩ = qzQ θ := by
  unfold quatAxisAngle
  have hlen : vlength ⟨0, 0, 1⟩ = 1 := by
    unfold vlength
    norm_num
  rw [hlen, if_neg (by norm_num : ¬ (1 : ℝ) < 1e-7)]
  unfold qzQ
  ext <;> simp only <;> rw [show 0.5 * θ = θ / 2 by ring] <;> ring

lemma elev_decomp (α θ : ℝ) :
    (Quat.mk (Real.cos α * Real.sin (θ / 2)) (Real.sin α * Real.sin (θ / 2)) 0
      (Real.cos (θ / 2))) = hmul (hmul (qzQ α) (qxQ θ)) (qzQ (-α)) := by
  have pythA := Real.sin_sq_add_cos_sq (α / 2)
  have hneg2 : (-α) / 2 = -(α / 2) := by ring
  ext <;>
    simp only [hmul, qzQ, qxQ, hneg2, Real.sin_neg, Real.cos_neg]
  · rw [cos_full α]
    linear_combination Real.sin (θ / 2) * pythA
  · rw [sin_full α]
    ring
  · ring
  · linear_combination (-(Real.cos (θ / 2))) * pythA

lemma hmul_canonical_step (α ψ θ dx : ℝ) :
    hmul (qzQ (-dx))
      (hmul (hmul (hmul (qzQ α) (qxQ θ)) (qzQ (-α))) (canonicalQ α ψ)) =
      canonicalQ (α - dx) ((ψ + θ)) := by
  unfold canonicalQ
  rw [hmul_assoc (hmul (qzQ α) (qxQ θ)) (qzQ (-α)) (hmul (qzQ α) (qxQ ψ)),
    ← hmul_assoc (qzQ (-α)) (qzQ α) (qxQ ψ), qz_neg_mul, hmul_one_left,
    hmul_assoc (qzQ α) (qxQ θ) (qxQ ψ), qx_mul,
    ← hmul_assoc (qzQ (-dx)) (qzQ α) (qxQ (θ + ψ)), qz_mul,
    show -dx + α = α - dx by ring, show θ + ψ = ψ + θ by ring]

lemma rotateOp_canonical (s : Settings) (dx dy α p : ℝ)
    (h1 : -(π / 2) ≤ p) (h2 : p ≤ π / 2) :
    rotateOp s dx dy (canonicalQ α (p + π / 2)) =
      canonicalQ (α - dx)
        ((p + (if dy + p > radiansOf (max s.max_pitch (-0.1)) ∨
              dy + p < radiansOf (min s.min_pitch (-89.9)) then 0 else dy)) + π / 2) := by
  unfold rotateOp
  rw [getEulerPitch_canonical α p h1 h2, canonical_col0, quatAxisAngle_tangent,
    quatAxisAngle_up, vmul_eq_hmul, vmul_eq_hmul, elev_decomp, hmul_canonical_step,
    show (p + π / 2) + (if dy + p > radiansOf (max s.max_pitch (-0.1)) ∨
        dy + p < radiansOf (min s.min_pitch (-89.9)) then 0 else dy) =
      (p + (if dy + p > radiansOf (max s.max_pitch (-0.1)) ∨
        dy + p < radiansOf (min s.min_pitch (-89.9)) then 0 else dy)) + π / 2 by ring]

lemma minpR_ge (s : Settings) (hmin : -89.9 ≤ s.min_pitch) :
    -(π / 2) ≤ radiansOf (min s.min_pitch (-89.9)) := by
  rw [min_eq_right hmin]
  unfold radiansOf
  linarith [Real.pi_pos]

lemma maxpR_le (s : Settings) (hmax : s.max_pitch ≤ 89) :
    radiansOf (max s.max_pitch (-0.1)) ≤ π / 2 := by
  unfold radiansOf
  have hm : max s.max_pitch (-0.1) ≤ 89 := max_le hmax (by norm_num)
  have h1 : max s.max_pitch (-0.1) * (π / 180) ≤ 89 * (π / 180) :=
    mul_le_mul_of_nonneg_right hm (by positivity)
  linarith [Real.pi_pos]

lemma rotSeq_canonical (s : Settings) (hmin : -89.9 ≤ s.min_pitch)
    (hmax : s.max_pitch ≤ 89) (ms : List (ℝ × ℝ)) :
    ∀ (α p : ℝ),
      radiansOf (min s.min_pitch (-89.9)) ≤ p →
      p ≤ radiansOf (max s.max_pitch (-0.1)) →
      ∃ α' p', rotSeq s ms (canonicalQ α (p + π / 2)) = canonicalQ α' (p' + π / 2) ∧
        radiansOf (min s.min_pitch (-89.9)) ≤ p' ∧
        p' ≤ radiansOf (max s.max_pitch (-0.1)) := by
  induction ms with
  | nil =>
    intro α p h1 h2
    exact ⟨α, p, rfl, h1, h2⟩
  | cons m rest ih =>
    intro α p h1 h2
    have hstep := rotateOp_canonical s m.1 m.2 α p
      (le_trans (minpR_ge s hmin) h1) (le_trans h2 (maxpR_le s hmax))
    have hseq : rotSeq s (m :: rest) (canonicalQ α (p + π / 2)) =
        rotSeq s rest (rotateOp s m.1 m.2 (canonicalQ α (p + π / 2))) := rfl
    rw [hseq, hstep]
    by_cases hcond : m.2 + p > radiansOf (max s.max_pitch (-0.1)) ∨
        m.2 + p < radiansOf (min s.min_pitch (-89.9))
    · rw [if_pos hcond]
      exact ih (α - m.1) (p + 0) (by simpa using h1) (by simpa using h2)
    · rw [if_neg hcond]
      push_neg at hcond
      exact ih (α - m.1) (p + m.2) (by linarith [hcond.2]) (by linarith [hcond.1])

/-- C1 (amended): for any settings with min-pitch at least -89.9 and
max-pitch at most 89 (the setter invariant), any starting local rotation
the manipulator can construct — a yaw-pitch (roll-free) rotation
`canonicalQ` whose pitch lies in
[min(minPitch, -89.9 deg), max(maxPitch, -0.1 deg)] in radians — and any
sequence of rotate(dx, dy) calls, the decoded pitch stays within that
interval (note the lower bound is min(minPitch, -89.9 deg), not minPitch
itself: see `rotate_pitch_cex`); and within a single rotate call the
vertical delta dy is zeroed entirely exactly when oldPitch + dy leaves
the interval, while dx still rotates the azimuth by -dx. -/
theorem rotate_pitch_clamp (s : Settings) (hmin : -89.9 ≤ s.min_pitch)
    (hmax : s.max_pitch ≤ 89) (α p : ℝ)
    (h1 : radiansOf (min s.min_pitch (-89.9)) ≤ p)
    (h2 : p ≤ radiansOf (max s.max_pitch (-0.1))) (ms : List (ℝ × ℝ)) :
    (radiansOf (min s.min_pitch (-89.9)) ≤
        getEulerPitch (rotSeq s ms (canonicalQ α (p + π / 2))) ∧
      getEulerPitch (rotSeq s ms (canonicalQ α (p + π / 2))) ≤
        radiansOf (max s.max_pitch (-0.1))) ∧
    (∀ dx dy α' p', -(π / 2) ≤ p' → p' ≤ π / 2 →
      rotateOp s dx dy (canonicalQ α' (p' + π / 2)) =
        canonicalQ (α' - dx)
          ((p' + (if dy + p' > radiansOf (max s.max_pitch (-0.1)) ∨
            dy + p' < radiansOf (min s.min_pitch (-89.9)) then 0 else dy)) + π / 2)) := by
  constructor
  · obtain ⟨α', p', heq, hp1, hp2⟩ := rotSeq_canonical s hmin hmax ms α p h1 h2
    rw [heq, getEulerPitch_canonical α' p'
      (le_trans (minpR_ge s hmin) hp1) (le_trans hp2 (maxpR_le s hmax))]
    exact ⟨hp1, hp2⟩
  · intro dx dy α' p' hq1 hq2
    exact rotateOp_canonical s dx dy α' p' hq1 hq2

/-- C1 witness: default settings (min-pitch -89.9, max-pitch -1), start
pitch -pi/4, one rotate call with dx = 0.3 and dy = 0.1. -/
theorem rotate_pitch_clamp_witness :
    radiansOf (min defaultSettings.min_pitch (-89.9)) ≤
      getEulerPitch (rotSeq defaultSettings [(0.3, 0.1)]
        (canonicalQ 0 (-(π / 4) + π / 2))) ∧
    getEulerPitch (rotSeq defaultSettings [(0.3, 0.1)]
        (canonicalQ 0 (-(π / 4) + π / 2))) ≤
      radiansOf (max defaultSettings.max_pitch (-0.1)) :=
  (rotate_pitch_clamp defaultSettings
    (by simp [defaultSettings]) (by simp [defaultSettings]; norm_num) 0 (-(π / 4))
    (by
      simp only [defaultSettings, min_self, radiansOf]
      linarith [Real.pi_pos])
    (by
      simp only [defaultSettings, radiansOf]
      rw [show max (-1 : ℝ) (-0.1) = -0.1 from max_eq_right (by norm_num)]
      linarith [Real.pi_pos])
    [(0.3, 0.1)]).1

/-- Settings for the C1 counterexample: min-pitch -45 degrees. -/
noncomputable def s45 : Settings := { defaultSettings with min_pitch := -45 }

/-- C1 counterexample: with min-pitch -45 deg (max-pitch -1 deg), a pose
at pitch exactly -45 deg = -pi/4 is inside the claimed interval
[minPitch, max(maxPitch, -0.1 deg)], yet rotate(0, -0.2) is NOT clamped
(the code clamps against min(minPitch, -89.9 deg) = -89.9 deg) and the
decoded pitch drops to -pi/4 - 0.2, strictly below minPitch. -/
theorem rotate_pitch_cex :
    radiansOf s45.min_pitch ≤ getEulerPitch (canonicalQ 0 (-(π / 4) + π / 2)) ∧
    getEulerPitch (canonicalQ 0 (-(π / 4) + π / 2)) ≤
      radiansOf (max s45.max_pitch (-0.1)) ∧
    getEulerPitch (rotateOp s45 0 (-0.2) (canonicalQ 0 (-(π / 4) + π / 2))) <
      radiansOf s45.min_pitch := by
  have hpi := Real.pi_pos
  have hpi4 := Real.pi_gt_d6
  have hpi5 := Real.pi_lt_d2
  have hmax45 : s45.max_pitch = -1 := rfl
  have hmin45 : s45.min_pitch = -45 := rfl
  have hp1 : -(π / 2) ≤ -(π / 4) := by linarith
  have hp2 : -(π / 4) ≤ π / 2 := by linarith
  have hpitch0 : getEulerPitch (canonicalQ 0 (-(π / 4) + π / 2)) = -(π / 4) :=
    getEulerPitch_canonical 0 (-(π / 4)) hp1 hp2
  have hstep := rotateOp_canonical s45 0 (-0.2) 0 (-(π / 4)) hp1 hp2
  have hcondF : ¬ ((-0.2 : ℝ) + -(π / 4) > radiansOf (max s45.max_pitch (-0.1)) ∨
      (-0.2 : ℝ) + -(π / 4) < radiansOf (min s45.min_pitch (-89.9))) := by
    push_neg
    constructor
    · rw [hmax45, show max (-1 : ℝ) (-0.1) = -0.1 from max_eq_right (by norm_num)]
      unfold radiansOf
      linarith
    · rw [hmin45, show min (-45 : ℝ) (-89.9) = -89.9 from min_eq_right (by norm_num)]
      unfold radiansOf
      linarith
  rw [if_neg hcondF] at hstep
  have hnew : getEulerPitch (rotateOp s45 0 (-0.2) (canonicalQ 0 (-(π / 4) + π / 2))) =
      -(π / 4) + -0.2 := by
    rw [hstep]
    exact getEulerPitch_canonical (0 - 0) (-(π / 4) + -0.2) (by linarith) (by linarith)
  refine ⟨?_, ?_, ?_⟩
  · rw [hpitch0, hmin45]
    unfold radiansOf
    linarith
  · rw [hpitch0, hmax45, show max (-1 : ℝ) (-0.1) = -0.1 from max_eq_right (by norm_num)]
    unfold radiansOf
    linarith
  · rw [hnew, hmin45]
    unfold radiansOf
    linarith

end MapManip
